import Mathlib

/-!
Verification development for the `ijson` yajl ctypes backend
(`src/ijson/backends/yajl.py`).  The module adapts the push-style yajl
recognizer (an external C library) to a pull-style generator
`basic_parse`.  We shallowly embed:

* the value converters of `_callback_data` (lines 43-60) and the helper
  `number` (lines 33-41);
* the callback bridge `c_callback` (lines 105-109);
* the chunked reader loop of `basic_parse` (lines 113-135), parameterised
  over an abstract recognizer (the external yajl collaborator, modelled
  per the spec's collaborator contract in section 6);
* the resource-operation trace of the loop (allocation/feed/finalize/
  error-retrieval/release), with the `finally`-guaranteed release.

Byte strings are `List Nat` (each entry a byte value), decoded text is a
`List Nat` of Unicode code points.
-/

namespace Yajl

/-- Recognizer status codes, the return values of `yajl_parse` /
`yajl_parse_complete` (constants `YAJL_OK = 0`, `YAJL_CANCELLED = 1`,
`YAJL_INSUFFICIENT_DATA = 2`, `YAJL_ERROR = 3`, lines 71-74 of the
source). -/
inductive Status where
  | ok
  | cancelled
  | insufficientData
  | error
deriving DecidableEq, Repr

/-- Exact decimal value, the result of `decimal.Decimal(lexeme)`:
sign, coefficient and decimal exponent, so the value is
`(-1)^neg * coeff * 10^exp` exactly. -/
structure DecimalVal where
  neg : Bool
  coeff : Nat
  exp : Int
deriving DecidableEq, Repr

/-- Python values produced by the converters of `_callback_data`.
`float` records that a binary floating-point conversion happened (the
`double` converter, line 52); its IEEE semantics is not modelled, only
the representation kind, which is all the claims inspect.  `text` is a
decoded (code point) string, `bytes` an undecoded byte string; the two
are distinct Python types (`unicode` vs `str`). -/
inductive JValue where
  | null
  | bool (b : Bool)
  | int (n : Int)
  | dec (d : DecimalVal)
  | float (lexeme : List Nat)
  | text (cps : List Nat)
  | bytes (bs : List Nat)
deriving DecidableEq, Repr

/-- An event as yielded by `basic_parse`: the pair
`(event name, converted value)` appended by `c_callback` (line 107). -/
abbrev Event := String × JValue

/-- Terminal outcomes of a `basic_parse` run.  Modelled from the spec:
`ijson/common.py` is not under `src/`, so the exception classes
`common.JSONError` (malformed input, carrying the recognizer's
diagnostic, raised at line 125) and `common.IncompleteJSONError`
(premature end of input, raised at line 128) are modelled as the
distinct constructors `jsonError` and `incomplete`, per the error
taxonomy of spec section 7. -/
inductive Outcome where
  | done
  | jsonError (diag : String)
  | incomplete
deriving DecidableEq, Repr

/-! ## Byte-level helpers for the Python numeric parsers -/

/-- ASCII whitespace stripped by Python's `int()` and `Decimal()`
constructors. -/
def isSpaceByte (b : Nat) : Bool :=
  b = 32 || b = 9 || b = 10 || b = 11 || b = 12 || b = 13

/-- ASCII decimal digit. -/
def isDigitByte (b : Nat) : Bool := 48 ≤ b && b ≤ 57

/-- Value of a base-10 digit string (exact, arbitrary length). -/
def digitsToNat (l : List Nat) : Nat :=
  l.foldl (fun acc b => acc * 10 + (b - 48)) 0

/-- Strip leading and trailing ASCII whitespace, as `int()` and
`Decimal()` do before parsing. -/
def stripWS (s : List Nat) : List Nat :=
  ((s.dropWhile isSpaceByte).reverse.dropWhile isSpaceByte).reverse

/-- Optional sign (`+` = 43, `-` = 45) followed by a nonempty run of
digits; the common core of `int()` and of `Decimal()` exponents. -/
def signedDigits (t : List Nat) : Option Int :=
  match t with
  | [] => none
  | b :: ds =>
    if b = 43 then
      if ds ≠ [] ∧ ds.all isDigitByte then some (digitsToNat ds) else none
    else if b = 45 then
      if ds ≠ [] ∧ ds.all isDigitByte then some (-(digitsToNat ds : Int)) else none
    else
      if (b :: ds).all isDigitByte then some (digitsToNat (b :: ds)) else none

/-- Python `int(value)` on a byte string: strip whitespace, then an
optional sign and a nonempty digit run; `none` models the `ValueError`
raised on any other lexeme (e.g. one with a fraction or exponent). -/
def pyInt (s : List Nat) : Option Int :=
  signedDigits (stripWS s)

/-- Split a byte string into its longest digit prefix and the rest. -/
def spanDigits : List Nat → List Nat × List Nat
  | [] => ([], [])
  | b :: rest =>
    if isDigitByte b then
      let p := spanDigits rest
      (b :: p.1, p.2)
    else ([], b :: rest)

/-- Python `decimal.Decimal(value)` on a finite numeric byte string:
strip whitespace, optional sign, integer digits, optional `.` and
fraction digits (at least one digit overall), optional `e`/`E` exponent
with optional sign.  `none` models the `InvalidOperation` raised on a
non-numeric lexeme.  (The special forms `Infinity`/`NaN` never occur in
recognizer number lexemes and are not modelled.) -/
def pyDecimal (s : List Nat) : Option DecimalVal :=
  let t := stripWS s
  let sgn : Bool × List Nat :=
    match t with
    | 43 :: r => (false, r)
    | 45 :: r => (true, r)
    | r => (false, r)
  let ip := spanDigits sgn.2
  let fr : List Nat × List Nat :=
    match ip.2 with
    | 46 :: rr => spanDigits rr
    | r => ([], r)
  let frTaken : Bool := match ip.2 with | 46 :: _ => true | _ => false
  let rest := if frTaken then fr.2 else ip.2
  if ip.1 = [] ∧ (¬ frTaken ∨ fr.1 = []) then none
  else
    let coeff := digitsToNat (ip.1 ++ fr.1)
    let fexp : Int := -(fr.1.length : Int)
    match rest with
    | [] => some ⟨sgn.1, coeff, fexp⟩
    | 101 :: r3 => (signedDigits r3).map (fun e => ⟨sgn.1, coeff, e + fexp⟩)
    | 69 :: r3 => (signedDigits r3).map (fun e => ⟨sgn.1, coeff, e + fexp⟩)
    | _ => none

/-- The helper `number` (source lines 33-41): try `int(value)` and, on
the `ValueError` of a non-integer lexeme, fall back to
`Decimal(value)`.  `none` models an exception escaping `number` (only
when both parses fail, which never happens on recognizer lexemes). -/
def number (s : List Nat) : Option JValue :=
  match pyInt s with
  | some n => some (JValue.int n)
  | none => (pyDecimal s).map JValue.dec

/-! ## UTF-8 decoding (Python `bytes.decode('utf-8')`, strict) -/

/-- Continuation byte `0x80..0xBF`. -/
def isCont (b : Nat) : Bool := 128 ≤ b && b ≤ 191

/-- Fuel-indexed strict UTF-8 decoder: rejects overlong encodings,
surrogates and code points above `U+10FFFF`, exactly as Python's strict
`decode('utf-8')` does.  The fuel is an upper bound on the number of
bytes; `utf8Decode` instantiates it with the length. -/
def utf8DecodeF : Nat → List Nat → Option (List Nat)
  | _, [] => some []
  | 0, _ :: _ => none
  | fuel + 1, b :: rest =>
    if b ≤ 127 then
      (utf8DecodeF fuel rest).map (fun cs => b :: cs)
    else if 194 ≤ b && b ≤ 223 then
      match rest with
      | c :: rest2 =>
        if isCont c then
          (utf8DecodeF fuel rest2).map (fun cs => ((b - 192) * 64 + (c - 128)) :: cs)
        else none
      | [] => none
    else if b = 224 then
      match rest with
      | c :: d :: rest2 =>
        if (160 ≤ c && c ≤ 191) && isCont d then
          (utf8DecodeF fuel rest2).map
            (fun cs => ((b - 224) * 4096 + (c - 128) * 64 + (d - 128)) :: cs)
        else none
      | _ => none
    else if (225 ≤ b && b ≤ 236) || b = 238 || b = 239 then
      match rest with
      | c :: d :: rest2 =>
        if isCont c && isCont d then
          (utf8DecodeF fuel rest2).map
            (fun cs => ((b - 224) * 4096 + (c - 128) * 64 + (d - 128)) :: cs)
        else none
      | _ => none
    else if b = 237 then
      match rest with
      | c :: d :: rest2 =>
        if (128 ≤ c && c ≤ 159) && isCont d then
          (utf8DecodeF fuel rest2).map
            (fun cs => ((b - 224) * 4096 + (c - 128) * 64 + (d - 128)) :: cs)
        else none
      | _ => none
    else if b = 240 then
      match rest with
      | c :: d :: e :: rest2 =>
        if ((144 ≤ c && c ≤ 191) && isCont d) && isCont e then
          (utf8DecodeF fuel rest2).map
            (fun cs =>
              ((b - 240) * 262144 + (c - 128) * 4096 + (d - 128) * 64 + (e - 128)) :: cs)
        else none
      | _ => none
    else if 241 ≤ b && b ≤ 243 then
      match rest with
      | c :: d :: e :: rest2 =>
        if (isCont c && isCont d) && isCont e then
          (utf8DecodeF fuel rest2).map
            (fun cs =>
              ((b - 240) * 262144 + (c - 128) * 4096 + (d - 128) * 64 + (e - 128)) :: cs)
        else none
      | _ => none
    else if b = 244 then
      match rest with
      | c :: d :: e :: rest2 =>
        if ((128 ≤ c && c ≤ 143) && isCont d) && isCont e then
          (utf8DecodeF fuel rest2).map
            (fun cs =>
              ((b - 240) * 262144 + (c - 128) * 4096 + (d - 128) * 64 + (e - 128)) :: cs)
        else none
      | _ => none
    else none

/-- Strict UTF-8 decode of a byte string into code points; `none`
models the `UnicodeDecodeError` of Python's `decode('utf-8')`. -/
def utf8Decode (bs : List Nat) : Option (List Nat) :=
  utf8DecodeF bs.length bs

/-- A byte string is valid UTF-8 when the strict decoder accepts it. -/
def validUtf8 (bs : List Nat) : Bool :=
  (utf8Decode bs).isSome

/-! ## The converters of `_callback_data` (source lines 43-60) -/

/-- `('null', C_EMPTY, lambda: None)`. -/
def conv_null : JValue := JValue.null

/-- `('boolean', C_INT, lambda v: bool(v))`. -/
def conv_boolean (v : Int) : JValue := JValue.bool (v != 0)

/-- `('integer', C_LONG, lambda v, l: int(string_at(v, l)))`; `none`
models the `ValueError` of a non-integer lexeme. -/
def conv_integer (bs : List Nat) : Option JValue :=
  (pyInt bs).map JValue.int

/-- `('double', C_DOUBLE, lambda v, l: float(string_at(v, l)))`:
converts the lexeme to a binary float (IEEE semantics not modelled,
only the representation kind). -/
def conv_double (bs : List Nat) : Option JValue :=
  some (JValue.float bs)

/-- `('number', C_STR, lambda v, l: number(string_at(v, l)))`. -/
def conv_number (bs : List Nat) : Option JValue :=
  number bs

/-- `('string', C_STR, lambda v, l: string_at(v, l).decode('utf-8'))`:
the raw byte span is decoded to text; `none` models the
`UnicodeDecodeError` on invalid UTF-8. -/
def conv_string (bs : List Nat) : Option JValue :=
  (utf8Decode bs).map JValue.text

/-- `('map_key', C_STR, lambda v, l: string_at(v, l))`: the raw byte
span, with no decoding. -/
def conv_map_key (bs : List Nat) : Option JValue :=
  some (JValue.bytes bs)

/-- The string converter as registered by `basic_parse`: the callbacks
are built from `_callback_data` (line 111) before the `Config`
carrying `check_utf8` is handed to the recognizer (lines 112-113); the
flag is never consulted by the converter, so the argument is unused. -/
def sessionStringConv (check_utf8 : Bool) (bs : List Nat) : Option JValue :=
  conv_string bs

/-- The callback bridge `c_callback` (source lines 106-108):
`events.append((event, func(*args))); return 1`.  `convResult` is the
outcome of the converter `func(*args)`: `some v` when it returns `v`,
`none` when it raises.  A raised conversion exception propagates out of
the callback (`Except.error`); otherwise the event is appended and the
nonzero continue signal `1` is returned. -/
def c_callback (events : List Event) (kind : String) (convResult : Option JValue) :
    Except Unit (List Event × Int) :=
  match convResult with
  | some v => Except.ok (events ++ [(kind, v)], 1)
  | none => Except.error ()

/-! ## The abstract recognizer and the chunked reader loop -/

/-- The recognizer collaborator (yajl, external to the repository),
per the spec's collaborator contract (section 6): a state machine with
a `feed(bytes)` operation (`yajl_parse`), a `finalize` operation
(`yajl_parse_complete`), and a diagnostic retrieval operation
(`yajl_get_error`).  `feed`/`complete` return the successor state, the
status code, and the list of events appended to the session buffer by
the callbacks that fired synchronously during the call. -/
structure Recognizer (σ : Type) where
  feed : σ → List Nat → σ × Status × List Event
  complete : σ → σ × Status × List Event
  getError : σ → List Nat → String

/-- One iteration's recognizer call in `basic_parse` (lines 116-120):
`buffer = f.read(buf_size)`; if the buffer is nonempty,
`yajl_parse(handle, buffer, len(buffer))`, otherwise
`yajl_parse_complete(handle)`.  The input source is the list of
successive `read` results; once it is exhausted every further read
returns the empty byte string. -/
def stepOf (R : Recognizer σ) (s : σ) (chunks : List (List Nat)) :
    σ × Status × List Event :=
  if (chunks.headD []).isEmpty then R.complete s else R.feed s (chunks.headD [])

/-- The `while True` loop of `basic_parse` (lines 115-133), returning
the events yielded to the consumer and the terminal outcome.  Per
iteration: read a buffer and call the recognizer (`stepOf`); if the
status is `YAJL_ERROR`, retrieve the diagnostic and raise `JSONError`
(lines 121-125) - note the buffered events of this call are not
yielded; if the source is exhausted and no events are buffered, raise
`IncompleteJSONError` on `YAJL_INSUFFICIENT_DATA` or terminate (lines
126-129); otherwise yield the buffered events, clear the buffer and
iterate (lines 131-133).  The fuel bounds the number of iterations
(`none` = fuel exhausted); iterating on the same state with the source
exhausted is what lets the loop terminate after trailing finalize
events. -/
def runLoop (R : Recognizer σ) : Nat → σ → List (List Nat) → Option (List Event × Outcome)
  | 0, _, _ => none
  | fuel + 1, s, chunks =>
    match stepOf R s chunks with
    | (s', result, evs) =>
      if result = Status.error then
        some ([], Outcome.jsonError (R.getError s' (chunks.headD [])))
      else if (chunks.headD []).isEmpty && evs.isEmpty then
        some ([], if result = Status.insufficientData then Outcome.incomplete else Outcome.done)
      else
        (runLoop R fuel s' chunks.tail).map (fun p => (evs ++ p.1, p.2))

/-- The events constructed by the recognizer callbacks over a run: the
concatenation, in firing order, of the events appended to the session
buffer by every `yajl_parse` / `yajl_parse_complete` call the loop
performs (same control flow as `runLoop`, but the buffered events of a
call are collected even when its status is `YAJL_ERROR`). -/
def callEvents (R : Recognizer σ) : Nat → σ → List (List Nat) → Option (List Event)
  | 0, _, _ => none
  | fuel + 1, s, chunks =>
    match stepOf R s chunks with
    | (s', result, evs) =>
      if result = Status.error then
        some evs
      else if (chunks.headD []).isEmpty && evs.isEmpty then
        some []
      else
        (callEvents R fuel s' chunks.tail).map (fun es => evs ++ es)

/-- Operations on the recognizer handle. -/
inductive HOp where
  | parseCall (chunk : List Nat)
  | completeCall
  | getErrorCall
  | freeErrorCall
  | free
deriving DecidableEq, Repr

/-- An element of the generator's execution trace: a handle operation
or an event yielded to the consumer. -/
inductive Item where
  | op (o : HOp)
  | yield (e : Event)
deriving DecidableEq, Repr

/-- The reader loop again (same control flow as `runLoop`), now
recording the execution trace: handle operations interleaved with the
yields.  The release `yajl_free(handle)` of the `finally` block (line
135) is not part of the loop body's trace; it is appended by
`fullTraceOps` / `abandonTraceOps` on every exit path, which is exactly
what `try/finally` and generator finalization guarantee. -/
def runItems (R : Recognizer σ) : Nat → σ → List (List Nat) → Option (List Item × Outcome)
  | 0, _, _ => none
  | fuel + 1, s, chunks =>
    let callOp : Item :=
      if (chunks.headD []).isEmpty then Item.op HOp.completeCall
      else Item.op (HOp.parseCall (chunks.headD []))
    match stepOf R s chunks with
    | (s', result, evs) =>
      if result = Status.error then
        some ([callOp, Item.op HOp.getErrorCall, Item.op HOp.freeErrorCall],
          Outcome.jsonError (R.getError s' (chunks.headD [])))
      else if (chunks.headD []).isEmpty && evs.isEmpty then
        some ([callOp],
          if result = Status.insufficientData then Outcome.incomplete else Outcome.done)
      else
        (runItems R fuel s' chunks.tail).map
          (fun p => (callOp :: (evs.map Item.yield ++ p.1), p.2))

/-- The handle operations of a trace, in order. -/
def opsOf (items : List Item) : List HOp :=
  items.filterMap (fun it => match it with | Item.op o => some o | Item.yield _ => none)

/-- The events yielded to the consumer, in order. -/
def yieldsOf (items : List Item) : List Event :=
  items.filterMap (fun it => match it with | Item.op _ => none | Item.yield e => some e)

/-- The part of the generator body that has executed when the consumer
has requested `k` events and then abandoned the sequence: everything
through the `k`-th yield (or the whole body, when it produces fewer
than `k` events - that is the fully-consumed case).  A generator is
suspended at the yield it last reached; closing it then runs the
`finally` block. -/
def takeThroughYields : Nat → List Item → List Item
  | _, [] => []
  | 0, _ :: _ => []
  | k + 1, Item.op o :: rest => Item.op o :: takeThroughYields (k + 1) rest
  | k + 1, Item.yield e :: rest =>
    Item.yield e :: (if k = 0 then [] else takeThroughYields k rest)

/-- Handle-operation trace of a run the consumer fully drains: the loop
body's operations followed by the `finally`-block release. -/
def fullTraceOps (items : List Item) : List HOp :=
  opsOf items ++ [HOp.free]

/-- Handle-operation trace when the consumer abandons the sequence
after `k` events: the executed prefix's operations followed by the
release that generator finalization triggers. -/
def abandonTraceOps (k : Nat) (items : List Item) : List HOp :=
  opsOf (takeThroughYields k items) ++ [HOp.free]

/-! ## Concrete recognizer models

The recognizer is the external yajl library (not part of this
repository); concrete instances below are modelled from the spec's
collaborator contract (section 6) and are used to instantiate the
theorems at concrete inputs. -/

/-- Modelled from the spec: a scripted recognizer.  The state is the
list of remaining responses; each `feed`/`finalize` call pops the next
`(status, buffered events)` response, and `get_error` returns the fixed
positional diagnostic `err`.  An exhausted script answers `Ok` with no
events. -/
def scripted (err : String) : Recognizer (List (Status × List Event)) where
  feed := fun s _ =>
    match s with
    | [] => ([], Status.ok, [])
    | r :: rest => (rest, r.1, r.2)
  complete := fun s =>
    match s with
    | [] => ([], Status.ok, [])
    | r :: rest => (rest, r.1, r.2)
  getError := fun _ _ => err

/-- Modelled from the spec: an incremental recognizer, the shape the
spec's collaborator contract prescribes for yajl.  Its observable
behaviour depends only on the cumulative bytes consumed: `cum s` is the
list of events recognized within the byte prefix `s` (in recognition
order), `status s` the status a feed call ending at `s` reports,
`finEvents s` the cumulative events after finalizing at `s` (the
trailing events are `finEvents s` minus `cum s`), and `finStatus s` the
finalize status. -/
structure IncRecognizer where
  cum : List Nat → List Event
  status : List Nat → Status
  finEvents : List Nat → List Event
  finStatus : List Nat → Status
  errMsg : String

/-- The `Recognizer` state machine of an incremental recognizer: the
state is the pair (bytes consumed so far, finalized flag).  A feed call
appends the chunk and reports the newly recognized events (the
cumulative events minus those already delivered); the first finalize
call delivers the trailing events, later ones deliver none. -/
def ofInc (I : IncRecognizer) : Recognizer (List Nat × Bool) where
  feed := fun st c =>
    ((st.1 ++ c, st.2), I.status (st.1 ++ c),
      (I.cum (st.1 ++ c)).drop (I.cum st.1).length)
  complete := fun st =>
    ((st.1, true), I.finStatus st.1,
      if st.2 then [] else (I.finEvents st.1).drop (I.cum st.1).length)
  getError := fun _ _ => I.errMsg

/-- Modelled from the spec: a tiny concrete incremental recognizer,
used to instantiate the chunking theorems.  Every byte `49` (`'1'`)
consumed is one recognized `number` event; a byte `120` (`'x'`)
anywhere makes the status a syntax error. -/
def toyRec : IncRecognizer where
  cum := fun s => (s.filter (fun b => b = 49)).map (fun _ => (("number" : String), JValue.int 1))
  status := fun s => if 120 ∈ s then Status.error else Status.ok
  finEvents := fun s => (s.filter (fun b => b = 49)).map (fun _ => (("number" : String), JValue.int 1))
  finStatus := fun s => if 120 ∈ s then Status.error else Status.ok
  errMsg := "lexical error"

/-- Split a byte string into successive chunks of `b` bytes (the
successive results of `f.read(buf_size)` for a source holding the
string); fuel-indexed structural recursion, instantiated with the
length. -/
def chunksOfF : Nat → Nat → List Nat → List (List Nat)
  | _, _, [] => []
  | 0, _, _ :: _ => []
  | fuel + 1, b, x :: xs => (x :: xs).take b :: chunksOfF fuel b ((x :: xs).drop b)

/-- The chunks a source holding `l` delivers under `buf_size = b`. -/
def chunksOf (b : Nat) (l : List Nat) : List (List Nat) :=
  chunksOfF l.length b l

/-! ## Helper lemmas -/

theorem dropWhile_eq_self_of_not (p : Nat → Bool) (l : List Nat)
    (h : ∀ b ∈ l, p b = false) : l.dropWhile p = l := by
  cases l with
  | nil => rfl
  | cons a l => rw [List.dropWhile_cons, h a (by simp)]; simp

theorem stripWS_eq_self {s : List Nat} (h : ∀ b ∈ s, isSpaceByte b = false) :
    stripWS s = s := by
  unfold stripWS
  rw [dropWhile_eq_self_of_not _ _ h,
    dropWhile_eq_self_of_not _ _ (fun b hb => h b (List.mem_reverse.mp hb)),
    List.reverse_reverse]

theorem not_space_of_digit {b : Nat} (h : isDigitByte b = true) : isSpaceByte b = false := by
  simp only [isDigitByte, Bool.and_eq_true, decide_eq_true_eq] at h
  simp only [isSpaceByte, Bool.or_eq_false_iff, decide_eq_false_iff_not]
  omega

theorem pyInt_digits {s : List Nat} (hne : s ≠ []) (hd : s.all isDigitByte = true) :
    pyInt s = some ((digitsToNat s : Int)) := by
  have hall : ∀ b ∈ s, isDigitByte b = true := by
    simpa [List.all_eq_true] using hd
  have hstrip : stripWS s = s :=
    stripWS_eq_self (fun b hb => not_space_of_digit (hall b hb))
  rw [pyInt, hstrip]
  cases s with
  | nil => exact absurd rfl hne
  | cons b ds =>
    have hb48 : 48 ≤ b ∧ b ≤ 57 := by
      simpa [isDigitByte] using hall b (by simp)
    simp only [signedDigits]
    rw [if_neg (by omega : ¬ b = 43), if_neg (by omega : ¬ b = 45), if_pos hd]

theorem drop_telescope {α : Type} {l₁ l₂ l₃ : List α} (h₁ : l₁ <+: l₂) (h₂ : l₂ <+: l₃) :
    l₂.drop l₁.length ++ l₃.drop l₂.length = l₃.drop l₁.length := by
  obtain ⟨a, rfl⟩ := h₁
  obtain ⟨b, rfl⟩ := h₂
  rw [List.drop_left, List.drop_left, List.append_assoc, List.drop_left]

theorem prefix_append_left {α : Type} (l : List α) {l₁ l₂ : List α} (h : l₁ <+: l₂) :
    l ++ l₁ <+: l ++ l₂ := by
  obtain ⟨t, rfl⟩ := h
  exact ⟨t, by rw [List.append_assoc]⟩

theorem chunksOfF_flatten {b : Nat} (hb : 0 < b) :
    ∀ (fuel : Nat) (l : List Nat), l.length ≤ fuel → (chunksOfF fuel b l).flatten = l := by
  intro fuel
  induction fuel with
  | zero =>
    intro l hl
    cases l with
    | nil => rfl
    | cons x xs => simp at hl
  | succ fuel ih =>
    intro l hl
    cases l with
    | nil => rfl
    | cons x xs =>
      simp only [chunksOfF, List.flatten_cons]
      rw [ih _ (by rw [List.length_drop]; simp at hl ⊢; omega)]
      exact List.take_append_drop b (x :: xs)

theorem chunksOfF_ne_nil {b : Nat} (hb : 0 < b) :
    ∀ (fuel : Nat) (l ch : List Nat), ch ∈ chunksOfF fuel b l → ch ≠ [] := by
  intro fuel
  induction fuel with
  | zero =>
    intro l ch h
    cases l <;> simp [chunksOfF] at h
  | succ fuel ih =>
    intro l ch h
    cases l with
    | nil => simp [chunksOfF] at h
    | cons x xs =>
      simp only [chunksOfF] at h
      rcases List.mem_cons.mp h with h | h
      · subst h
        cases b with
        | zero => omega
        | succ n => simp
      · exact ih _ _ h

theorem chunksOf_flatten {b : Nat} (hb : 0 < b) (l : List Nat) :
    (chunksOf b l).flatten = l :=
  chunksOfF_flatten hb l.length l le_rfl

theorem chunksOf_ne_nil {b : Nat} (hb : 0 < b) (l ch : List Nat) (h : ch ∈ chunksOf b l) :
    ch ≠ [] :=
  chunksOfF_ne_nil hb l.length l ch h

theorem trace_count_free {ops : List HOp} (h : HOp.free ∉ ops) :
    (ops ++ [HOp.free]).count HOp.free = 1 := by
  rw [List.count_append, List.count_eq_zero.mpr h]
  rfl

theorem runLoop_succ (R : Recognizer σ) (fuel : Nat) (s : σ) (chunks : List (List Nat)) :
    runLoop R (fuel + 1) s chunks =
      match stepOf R s chunks with
      | (s', result, evs) =>
        if result = Status.error then
          some ([], Outcome.jsonError (R.getError s' (chunks.headD [])))
        else if (chunks.headD []).isEmpty && evs.isEmpty then
          some ([], if result = Status.insufficientData then Outcome.incomplete else Outcome.done)
        else
          (runLoop R fuel s' chunks.tail).map (fun p => (evs ++ p.1, p.2)) := rfl

theorem callEvents_succ (R : Recognizer σ) (fuel : Nat) (s : σ) (chunks : List (List Nat)) :
    callEvents R (fuel + 1) s chunks =
      match stepOf R s chunks with
      | (s', result, evs) =>
        if result = Status.error then
          some evs
        else if (chunks.headD []).isEmpty && evs.isEmpty then
          some []
        else
          (callEvents R fuel s' chunks.tail).map (fun es => evs ++ es) := rfl

theorem runItems_succ (R : Recognizer σ) (fuel : Nat) (s : σ) (chunks : List (List Nat)) :
    runItems R (fuel + 1) s chunks =
      (let callOp : Item :=
        if (chunks.headD []).isEmpty then Item.op HOp.completeCall
        else Item.op (HOp.parseCall (chunks.headD []));
      match stepOf R s chunks with
      | (s', result, evs) =>
        if result = Status.error then
          some ([callOp, Item.op HOp.getErrorCall, Item.op HOp.freeErrorCall],
            Outcome.jsonError (R.getError s' (chunks.headD [])))
        else if (chunks.headD []).isEmpty && evs.isEmpty then
          some ([callOp],
            if result = Status.insufficientData then Outcome.incomplete else Outcome.done)
        else
          (runItems R fuel s' chunks.tail).map
            (fun p => (callOp :: (evs.map Item.yield ++ p.1), p.2))) := rfl

theorem runLoop_mono (R : Recognizer σ) :
    ∀ (f₁ f₂ : Nat) (s : σ) (chunks : List (List Nat)) (r : List Event × Outcome),
      f₁ ≤ f₂ → runLoop R f₁ s chunks = some r → runLoop R f₂ s chunks = some r := by
  intro f₁
  induction f₁ with
  | zero =>
    intro f₂ s chunks r _ h
    simp [runLoop] at h
  | succ f ih =>
    intro f₂ s chunks r hle h
    obtain ⟨g, rfl⟩ : ∃ g, f₂ = g + 1 := ⟨f₂ - 1, by omega⟩
    rcases hstep : stepOf R s chunks with ⟨s', result, evs⟩
    rw [runLoop_succ] at h ⊢
    simp only [hstep] at h ⊢
    by_cases herr : result = Status.error
    · rw [if_pos herr] at h ⊢
      exact h
    · by_cases hbrk : ((chunks.headD []).isEmpty && evs.isEmpty) = true
      · rw [if_neg herr, if_pos hbrk] at h ⊢
        exact h
      · rw [if_neg herr] at h ⊢
        rw [if_neg hbrk] at h ⊢
        rcases hrec : runLoop R f s' chunks.tail with _ | p
        · rw [hrec] at h
          simp at h
        · rw [hrec] at h
          rw [ih g s' chunks.tail p (by omega) hrec]
          exact h

theorem opsOf_nil : opsOf [] = [] := rfl

theorem opsOf_cons_op (o : HOp) (items : List Item) :
    opsOf (Item.op o :: items) = o :: opsOf items := rfl

theorem opsOf_cons_yield (e : Event) (items : List Item) :
    opsOf (Item.yield e :: items) = opsOf items := rfl

theorem opsOf_yields_append (evs : List Event) (items : List Item) :
    opsOf (evs.map Item.yield ++ items) = opsOf items := by
  induction evs with
  | nil => rfl
  | cons e evs ih => simpa [opsOf_cons_yield] using ih

theorem runItems_no_free (R : Recognizer σ) :
    ∀ (fuel : Nat) (s : σ) (chunks : List (List Nat)) (items : List Item) (out : Outcome),
      runItems R fuel s chunks = some (items, out) → HOp.free ∉ opsOf items := by
  intro fuel
  induction fuel with
  | zero =>
    intro s chunks items out h
    simp [runItems] at h
  | succ fuel ih =>
    intro s chunks items out h
    rcases hstep : stepOf R s chunks with ⟨s', result, evs⟩
    rw [runItems_succ] at h
    simp only [hstep] at h
    by_cases herr : result = Status.error
    · rw [if_pos herr, Option.some.injEq, Prod.mk.injEq] at h
      obtain ⟨hitems, -⟩ := h
      subst hitems
      split <;> simp [opsOf, List.filterMap_cons]
    · by_cases hbrk : ((chunks.headD []).isEmpty && evs.isEmpty) = true
      · rw [if_neg herr, if_pos hbrk, Option.some.injEq, Prod.mk.injEq] at h
        obtain ⟨hitems, -⟩ := h
        subst hitems
        split <;> simp [opsOf, List.filterMap_cons]
      · rw [if_neg herr, if_neg hbrk] at h
        rcases hrec : runItems R fuel s' chunks.tail with _ | p
        · rw [hrec] at h
          simp at h
        · rw [hrec] at h
          rw [Option.map_some', Option.some.injEq, Prod.mk.injEq] at h
          obtain ⟨hitems, -⟩ := h
          subst hitems
          rcases p with ⟨items', out'⟩
          have hfree : HOp.free ∉ opsOf items' := ih s' chunks.tail items' out' hrec
          split <;> simp [opsOf_cons_op, opsOf_yields_append, hfree]

theorem runLoop_callEvents (R : Recognizer σ) :
    ∀ (fuel : Nat) (s : σ) (chunks : List (List Nat)) (es ce : List Event) (out : Outcome),
      runLoop R fuel s chunks = some (es, out) → callEvents R fuel s chunks = some ce →
      es <+: ce ∧ ((∀ d, out ≠ Outcome.jsonError d) → es = ce) := by
  intro fuel
  induction fuel with
  | zero =>
    intro s chunks es ce out h _
    simp [runLoop] at h
  | succ fuel ih =>
    intro s chunks es ce out h hc
    rcases hstep : stepOf R s chunks with ⟨s', result, evs⟩
    rw [runLoop_succ] at h
    rw [callEvents_succ] at hc
    simp only [hstep] at h hc
    by_cases herr : result = Status.error
    · rw [if_pos herr, Option.some.injEq, Prod.mk.injEq] at h
      rw [if_pos herr, Option.some.injEq] at hc
      obtain ⟨h1, h2⟩ := h
      subst h1
      subst hc
      refine ⟨List.nil_prefix, fun hnd => ?_⟩
      exact absurd h2.symm (hnd _)
    · by_cases hbrk : ((chunks.headD []).isEmpty && evs.isEmpty) = true
      · rw [if_neg herr, if_pos hbrk, Option.some.injEq, Prod.mk.injEq] at h
        rw [if_neg herr, if_pos hbrk, Option.some.injEq] at hc
        obtain ⟨h1, -⟩ := h
        subst h1
        subst hc
        exact ⟨List.prefix_refl _, fun _ => rfl⟩
      · rw [if_neg herr, if_neg hbrk] at h hc
        rcases hrec : runLoop R fuel s' chunks.tail with _ | p
        · rw [hrec] at h
          simp at h
        · rcases hrecc : callEvents R fuel s' chunks.tail with _ | q
          · rw [hrecc] at hc
            simp at hc
          · rw [hrec, Option.map_some', Option.some.injEq, Prod.mk.injEq] at h
            rw [hrecc, Option.map_some', Option.some.injEq] at hc
            obtain ⟨h1, h2⟩ := h
            subst h1
            subst hc
            rcases p with ⟨es', out'⟩
            obtain ⟨hpre, heq⟩ := ih s' chunks.tail es' q out' hrec hrecc
            refine ⟨prefix_append_left evs hpre, fun hnd => ?_⟩
            rw [heq (by simpa [← h2] using hnd)]

theorem runItems_jsonError (R : Recognizer σ) :
    ∀ (fuel : Nat) (s : σ) (chunks : List (List Nat)) (items : List Item) (d : String),
      runItems R fuel s chunks = some (items, Outcome.jsonError d) →
      HOp.getErrorCall ∈ opsOf items ∧ ∃ st buf, d = R.getError st buf := by
  intro fuel
  induction fuel with
  | zero =>
    intro s chunks items d h
    simp [runItems] at h
  | succ fuel ih =>
    intro s chunks items d h
    rcases hstep : stepOf R s chunks with ⟨s', result, evs⟩
    rw [runItems_succ] at h
    simp only [hstep] at h
    by_cases herr : result = Status.error
    · rw [if_pos herr, Option.some.injEq, Prod.mk.injEq] at h
      obtain ⟨h1, h2⟩ := h
      subst h1
      refine ⟨?_, s', chunks.headD [], (Outcome.jsonError.inj h2).symm⟩
      split <;> simp [opsOf, List.filterMap_cons]
    · by_cases hbrk : ((chunks.headD []).isEmpty && evs.isEmpty) = true
      · rw [if_neg herr, if_pos hbrk, Option.some.injEq, Prod.mk.injEq] at h
        obtain ⟨-, h2⟩ := h
        by_cases hins : result = Status.insufficientData
        · rw [if_pos hins] at h2
          exact absurd h2 (by simp)
        · rw [if_neg hins] at h2
          exact absurd h2 (by simp)
      · rw [if_neg herr, if_neg hbrk] at h
        rcases hrec : runItems R fuel s' chunks.tail with _ | p
        · rw [hrec] at h
          simp at h
        · rw [hrec, Option.map_some', Option.some.injEq, Prod.mk.injEq] at h
          obtain ⟨h1, h2⟩ := h
          subst h1
          rcases p with ⟨items', out'⟩
          dsimp only at h2
          subst h2
          obtain ⟨hmem, hdiag⟩ := ih s' chunks.tail items' d hrec
          refine ⟨?_, hdiag⟩
          split <;> simp [opsOf_cons_op, opsOf_yields_append, hmem]

theorem runLoop_ofInc (I : IncRecognizer)
    (hmono : ∀ s t, I.cum s <+: I.cum (s ++ t))
    (hfin : ∀ s, I.cum s <+: I.finEvents s)
    (full : List Nat)
    (hok : ∀ p, p <+: full → I.status p ≠ Status.error)
    (hfe : I.finStatus full ≠ Status.error) :
    ∀ (chunks : List (List Nat)) (pre : List Nat) (fuel : Nat),
      pre ++ chunks.flatten = full → (∀ ch ∈ chunks, ch ≠ []) →
      chunks.length + 2 ≤ fuel →
      runLoop (ofInc I) fuel (pre, false) chunks
        = some ((I.finEvents full).drop (I.cum pre).length,
            if I.finStatus full = Status.insufficientData then Outcome.incomplete
            else Outcome.done) := by
  intro chunks
  induction chunks with
  | nil =>
    intro pre fuel hconcat hne hfuel
    obtain ⟨f1, rfl⟩ : ∃ g, fuel = g + 1 := ⟨fuel - 1, by omega⟩
    have hpre : pre = full := by simpa using hconcat
    subst hpre
    have hstep : stepOf (ofInc I) (pre, false) [] =
        ((pre, true), I.finStatus pre, (I.finEvents pre).drop (I.cum pre).length) := by
      simp [stepOf, ofInc]
    rw [runLoop_succ]
    simp only [hstep]
    rw [if_neg hfe]
    by_cases hd : ((([] : List (List Nat)).headD []).isEmpty
        && ((I.finEvents pre).drop (I.cum pre).length).isEmpty) = true
    · rw [if_pos hd]
      have hdnil : (I.finEvents pre).drop (I.cum pre).length = [] := by
        simpa using hd
      rw [hdnil]
    · rw [if_neg hd]
      obtain ⟨f2, rfl⟩ : ∃ g, f1 = g + 1 := ⟨f1 - 1, by omega⟩
      have hstep2 : stepOf (ofInc I) (pre, true) [] =
          ((pre, true), I.finStatus pre, []) := by
        simp [stepOf, ofInc]
      rw [runLoop_succ]
      simp only [List.tail_nil, hstep2]
      rw [if_neg hfe, if_pos (by simp)]
      simp
  | cons c rest ih =>
    intro pre fuel hconcat hne hfuel
    obtain ⟨f1, rfl⟩ : ∃ g, fuel = g + 1 := ⟨fuel - 1, by omega⟩
    have hc : c ≠ [] := hne c (List.mem_cons_self ..)
    have hcE : (((c :: rest).headD []).isEmpty) = false := by
      cases c with
      | nil => exact absurd rfl hc
      | cons x xs => rfl
    have hstep : stepOf (ofInc I) (pre, false) (c :: rest) =
        ((pre ++ c, false), I.status (pre ++ c),
          (I.cum (pre ++ c)).drop (I.cum pre).length) := by
      simp [stepOf, ofInc, hcE, hc]
    have hpc : pre ++ c <+: full :=
      ⟨rest.flatten, by rw [← hconcat, List.flatten_cons, List.append_assoc]⟩
    have herr := hok _ hpc
    rw [runLoop_succ]
    simp only [hstep]
    rw [if_neg herr]
    rw [if_neg (show ¬ ((((c :: rest).headD []).isEmpty
        && ((I.cum (pre ++ c)).drop (I.cum pre).length).isEmpty) = true) by
      rw [hcE]; simp)]
    have hconcat' : (pre ++ c) ++ rest.flatten = full := by
      rw [← hconcat, List.flatten_cons, List.append_assoc]
    have hfuel' : rest.length + 2 ≤ f1 := by
      simp only [List.length_cons] at hfuel
      omega
    simp only [List.tail_cons]
    rw [ih (pre ++ c) f1 hconcat' (fun ch h => hne ch (List.mem_cons_of_mem _ h)) hfuel']
    rw [Option.map_some']
    have key : (I.cum (pre ++ c)).drop (I.cum pre).length
        ++ (I.finEvents full).drop (I.cum (pre ++ c)).length
        = (I.finEvents full).drop (I.cum pre).length := by
      apply drop_telescope (hmono pre c)
      obtain ⟨t, ht⟩ := hpc
      calc I.cum (pre ++ c) <+: I.cum ((pre ++ c) ++ t) := hmono _ t
        _ = I.cum full := by rw [ht]
        _ <+: I.finEvents full := hfin full
    rw [key]

theorem mem_takeThroughYields {a : Item} :
    ∀ (k : Nat) (l : List Item), a ∈ takeThroughYields k l → a ∈ l := by
  intro k l
  induction l generalizing k with
  | nil => simp [takeThroughYields]
  | cons it rest ih =>
    intro h
    cases k with
    | zero => simp [takeThroughYields] at h
    | succ k =>
      cases it with
      | op o =>
        simp only [takeThroughYields] at h
        rcases List.mem_cons.mp h with h | h
        · exact h ▸ List.mem_cons_self ..
        · exact List.mem_cons_of_mem _ (ih _ h)
      | yield e =>
        simp only [takeThroughYields] at h
        rcases List.mem_cons.mp h with h | h
        · exact h ▸ List.mem_cons_self ..
        · by_cases hk : k = 0
          · simp [hk] at h
          · simp only [if_neg hk] at h
            exact List.mem_cons_of_mem _ (ih _ h)

/-! ## Claims -/

/-- Claim C2: the unified number converter first attempts an exact
integer parse and, exactly when that parse fails, falls back to an
arbitrary-precision decimal parse; consequently every integer literal,
of arbitrary length, is returned as an exact integer and never as a
binary floating-point value. -/
theorem C2_number_int_before_decimal (s : List Nat) :
    (∀ n, pyInt s = some n → number s = some (JValue.int n))
    ∧ (pyInt s = none → number s = (pyDecimal s).map JValue.dec)
    ∧ (∀ lex, number s ≠ some (JValue.float lex))
    ∧ (s ≠ [] → s.all isDigitByte = true →
        number s = some (JValue.int (digitsToNat s))) := by
  refine ⟨?_, ?_, ?_, ?_⟩
  · intro n h
    simp [number, h]
  · intro h
    simp [number, h]
  · intro lex
    rcases h : pyInt s with _ | n
    · rcases hd : pyDecimal s with _ | dv <;> simp [number, h, hd]
    · simp [number, h]
  · intro h1 h2
    simp [number, pyInt_digits h1 h2]

/-- Witness for C2: a 40-digit integer literal is converted to the
exact integer, not a float or a decimal. -/
theorem C2_number_int_before_decimal_witness :
    number (List.replicate 40 49)
      = some (JValue.int (digitsToNat (List.replicate 40 49))) :=
  (C2_number_int_before_decimal (List.replicate 40 49)).2.2.2 (by decide) (by decide)

/-- Claim C5 (as stated) is false at a concrete input: the map_key
converter does not decode its payload; on the key payload `b"k"`
(byte 107) it returns the raw byte string, not decoded text. -/
theorem C5_counterexample :
    conv_map_key [107] = some (JValue.bytes [107])
    ∧ conv_map_key [107] ≠ some (JValue.text [107]) := by
  exact ⟨rfl, by decide⟩

/-- Claim C5 (amended): on a valid UTF-8 payload, the string converter
decodes the byte span to text, while the map_key converter returns the
raw byte span undecoded. -/
theorem C5_string_decodes_map_key_raw (bs cps : List Nat)
    (h : utf8Decode bs = some cps) :
    conv_string bs = some (JValue.text cps)
    ∧ conv_map_key bs = some (JValue.bytes bs) := by
  constructor
  · rw [conv_string, h, Option.map_some']
  · rfl

/-- Witness for the amended C5 at the payload `b"k\xc3\xa9"`. -/
theorem C5_string_decodes_map_key_raw_witness :
    conv_string [107, 195, 169] = some (JValue.text [107, 233])
    ∧ conv_map_key [107, 195, 169] = some (JValue.bytes [107, 195, 169]) :=
  C5_string_decodes_map_key_raw [107, 195, 169] [107, 233] (by decide)

/-- Claim C8 (as stated) is false at a concrete input: on an invalid
UTF-8 string payload the conversion raises, and the exception
propagates out of the callback instead of being recorded in a deferred
error flag - the callback does not return the continue signal. -/
theorem C8_counterexample :
    c_callback [] "string" (conv_string [255]) = Except.error () := rfl

/-- Claim C8 (amended): a callback invocation whose conversion succeeds
appends the converted event to the pending buffer and returns the
nonzero continue signal `1`; a conversion failure propagates as an
exception out of the callback - no deferred error flag exists in the
code. -/
theorem C8_callback_append_or_raise (events : List Event) (kind : String) :
    (∀ v, c_callback events kind (some v) = Except.ok (events ++ [(kind, v)], 1))
    ∧ c_callback events kind none = Except.error () :=
  ⟨fun _ => rfl, rfl⟩

/-- Claim C9 (as stated) is false at a concrete input: with
`check_utf8 = False` the string converter still fails on the invalid
UTF-8 payload `[255]`, while the claim predicts a failure only when
`check_utf8` is enabled. -/
theorem C9_counterexample :
    ¬ ((sessionStringConv false [255] = none)
        ↔ (false = true ∧ validUtf8 [255] = false)) := by
  decide

/-- Claim C9 (amended): the converter decodes unconditionally - a
decode failure occurs exactly when the payload is not valid UTF-8,
independently of `check_utf8` (the flag only configures the recognizer,
which, when it is enabled, rejects invalid UTF-8 before the converter
ever sees it). -/
theorem C9_decode_failure_iff_invalid (check_utf8 : Bool) (bs : List Nat) :
    (sessionStringConv check_utf8 bs = none ↔ validUtf8 bs = false)
    ∧ sessionStringConv check_utf8 bs = sessionStringConv true bs := by
  refine ⟨?_, rfl⟩
  rw [sessionStringConv, conv_string, validUtf8]
  rcases h : utf8Decode bs with _ | cps <;> simp [h]

/-- Claim C1 (as stated) is false at a concrete input: a feed call that
buffers one event and returns the terminal error status yields nothing
(the error is raised before the buffered events are yielded), so the
yielded sequence is not the callback-event sequence. -/
theorem C1_counterexample :
    (runLoop (scripted "lexical error") 2
        [(Status.error, [("null", JValue.null)])] [[110]]).map Prod.fst
      ≠ callEvents (scripted "lexical error") 2
        [(Status.error, [("null", JValue.null)])] [[110]] := by
  decide

/-- Claim C1 (amended): the yielded event sequence is a prefix of the
events constructed by the recognizer callbacks, in firing order; when
the run does not raise the malformed-input error it is exactly the
callback-event sequence - no reordering, no duplication, no loss.  The
events buffered during a feed whose status is the terminal error are
discarded, not yielded. -/
theorem C1_yields_callback_events {σ : Type} (R : Recognizer σ)
    (fuel : Nat) (s : σ) (chunks : List (List Nat)) (es ce : List Event) (out : Outcome)
    (h : runLoop R fuel s chunks = some (es, out))
    (hc : callEvents R fuel s chunks = some ce) :
    es <+: ce ∧ ((∀ d, out ≠ Outcome.jsonError d) → es = ce) :=
  runLoop_callEvents R fuel s chunks es ce out h hc

/-- Witness for the amended C1: a run without error yields exactly the
callback events. -/
theorem C1_yields_callback_events_witness :
    ([("null", JValue.null)] : List Event) <+: [("null", JValue.null)]
    ∧ ((∀ d, Outcome.done ≠ Outcome.jsonError d)
        → ([("null", JValue.null)] : List Event) = [("null", JValue.null)]) :=
  C1_yields_callback_events (scripted "e") 3 [(Status.ok, [("null", JValue.null)])]
    [[110]] [("null", JValue.null)] [("null", JValue.null)] Outcome.done
    (by decide) (by decide)

/-- Claim C3: when the source is exhausted, the finalize call reports
`YAJL_INSUFFICIENT_DATA` and zero buffered events remain, `basic_parse`
raises the premature-end-of-input error, which is a distinct error kind
from the malformed-input error. -/
theorem C3_truncated_incomplete {σ : Type} (R : Recognizer σ) (s s' : σ)
    (fuel : Nat) (h : R.complete s = (s', Status.insufficientData, [])) :
    runLoop R (fuel + 1) s [] = some ([], Outcome.incomplete)
    ∧ ∀ d, Outcome.incomplete ≠ Outcome.jsonError d := by
  constructor
  · rw [runLoop_succ]
    have hstep : stepOf R s [] = (s', Status.insufficientData, []) := by
      simpa [stepOf] using h
    simp only [hstep]
    rw [if_neg (by simp), if_pos (by simp)]
    simp
  · intro d
    simp

/-- Witness for C3: a recognizer whose finalize reports
InsufficientData with no trailing events (truncated input). -/
theorem C3_truncated_incomplete_witness :
    runLoop (scripted "e") 1 [(Status.insufficientData, [])] []
      = some ([], Outcome.incomplete)
    ∧ ∀ d, Outcome.incomplete ≠ Outcome.jsonError d :=
  C3_truncated_incomplete (scripted "e") [(Status.insufficientData, [])] [] 0 rfl

/-- Claim C4: whenever a feed or finalize call reports the syntax-error
status the run raises the malformed-input error; the raised error
carries the recognizer's positional diagnostic (non-empty whenever the
recognizer's diagnostics are non-empty), the diagnostic retrieval
appears in the loop-body trace, and the release does not - the release
is appended strictly after the body on every exit path, so the
diagnostic is retrieved before the recognizer resource is released. -/
theorem C4_syntax_error_diagnostic {σ : Type} (R : Recognizer σ)
    (hNE : ∀ st buf, R.getError st buf ≠ "")
    (fuel : Nat) (s : σ) (chunks : List (List Nat)) (items : List Item) (d : String)
    (h : runItems R fuel s chunks = some (items, Outcome.jsonError d)) :
    (d ≠ ""
      ∧ (∃ st buf, d = R.getError st buf)
      ∧ HOp.getErrorCall ∈ opsOf items
      ∧ HOp.free ∉ opsOf items
      ∧ (fullTraceOps items).getLast? = some HOp.free)
    ∧ ∀ (f : Nat) (s₂ : σ) (evs₂ : List Event),
        stepOf R s chunks = (s₂, Status.error, evs₂) →
        ∃ its, runItems R (f + 1) s chunks
          = some (its, Outcome.jsonError (R.getError s₂ (chunks.headD []))) := by
  obtain ⟨hmem, st, buf, hd⟩ := runItems_jsonError R fuel s chunks items d h
  refine ⟨⟨hd ▸ hNE st buf, ⟨st, buf, hd⟩, hmem,
    runItems_no_free R fuel s chunks items _ h,
    List.getLast?_concat _⟩, ?_⟩
  intro f s₂ evs₂ hstep
  refine ⟨[if (chunks.headD []).isEmpty then Item.op HOp.completeCall
      else Item.op (HOp.parseCall (chunks.headD [])),
      Item.op HOp.getErrorCall, Item.op HOp.freeErrorCall], ?_⟩
  rw [runItems_succ]
  simp only [hstep]
  simp

/-- Witness for C4 at the structurally invalid input bytes of
`{"a":}`: the recognizer buffers the start_map and map_key events, then
reports the syntax error with a non-empty diagnostic. -/
theorem C4_syntax_error_diagnostic_witness :
    (("parse error" : String) ≠ ""
      ∧ (∃ st buf, ("parse error" : String) = (scripted "parse error").getError st buf)
      ∧ HOp.getErrorCall ∈ opsOf [Item.op (HOp.parseCall [123, 34, 97, 34, 58, 125]),
          Item.op HOp.getErrorCall, Item.op HOp.freeErrorCall]
      ∧ HOp.free ∉ opsOf [Item.op (HOp.parseCall [123, 34, 97, 34, 58, 125]),
          Item.op HOp.getErrorCall, Item.op HOp.freeErrorCall]
      ∧ (fullTraceOps [Item.op (HOp.parseCall [123, 34, 97, 34, 58, 125]),
          Item.op HOp.getErrorCall, Item.op HOp.freeErrorCall]).getLast?
        = some HOp.free)
    ∧ ∀ (f : Nat) (s₂ : List (Status × List Event)) (evs₂ : List Event),
        stepOf (scripted "parse error")
          [(Status.error, [("start_map", JValue.null), ("map_key", JValue.bytes [97])])]
          [[123, 34, 97, 34, 58, 125]] = (s₂, Status.error, evs₂) →
        ∃ its, runItems (scripted "parse error") (f + 1)
          [(Status.error, [("start_map", JValue.null), ("map_key", JValue.bytes [97])])]
          [[123, 34, 97, 34, 58, 125]]
          = some (its, Outcome.jsonError ((scripted "parse error").getError s₂
              ([[123, 34, 97, 34, 58, 125]].headD []))) :=
  C4_syntax_error_diagnostic (scripted "parse error")
    (fun _ _ => (by decide : ("parse error" : String) ≠ "")) 2
    [(Status.error, [("start_map", JValue.null), ("map_key", JValue.bytes [97])])]
    [[123, 34, 97, 34, 58, 125]]
    [Item.op (HOp.parseCall [123, 34, 97, 34, 58, 125]),
      Item.op HOp.getErrorCall, Item.op HOp.freeErrorCall]
    "parse error" (by decide)

/-- Claim C6 (as stated) is false at a concrete input: with the toy
incremental recognizer on the input bytes `"1x"`, chunk size 1 yields
one event before the malformed-input error is raised, while chunk size
2 yields none - the buffered events discarded at the error depend on
the chunking. -/
theorem C6_counterexample :
    (runLoop (ofInc toyRec) 4 ([], false) (chunksOf 1 [49, 120])).map Prod.fst
      ≠ (runLoop (ofInc toyRec) 4 ([], false) (chunksOf 2 [49, 120])).map Prod.fst := by
  decide

/-- Claim C6 (amended): for an incremental recognizer and an input on
which no feed or finalize call reports the syntax-error status, runs
with any two positive chunk sizes produce identical event sequences and
identical outcomes (both equal to the full recognized event list with
the finalize-determined outcome); when an error status does occur, the
events yielded before the error may depend on the chunk size. -/
theorem C6_chunk_size_irrelevant (I : IncRecognizer)
    (hnil : I.cum [] = [])
    (hmono : ∀ s t, I.cum s <+: I.cum (s ++ t))
    (hfin : ∀ s, I.cum s <+: I.finEvents s)
    (content : List Nat) (b₁ b₂ f₁ f₂ : Nat) (hb₁ : 0 < b₁) (hb₂ : 0 < b₂)
    (hok : ∀ p, p <+: content → I.status p ≠ Status.error)
    (hfe : I.finStatus content ≠ Status.error)
    (hf₁ : (chunksOf b₁ content).length + 2 ≤ f₁)
    (hf₂ : (chunksOf b₂ content).length + 2 ≤ f₂) :
    runLoop (ofInc I) f₁ ([], false) (chunksOf b₁ content)
      = runLoop (ofInc I) f₂ ([], false) (chunksOf b₂ content)
    ∧ runLoop (ofInc I) f₁ ([], false) (chunksOf b₁ content)
      = some (I.finEvents content,
          if I.finStatus content = Status.insufficientData then Outcome.incomplete
          else Outcome.done) := by
  have h1 := runLoop_ofInc I hmono hfin content hok hfe (chunksOf b₁ content) [] f₁
    (by rw [List.nil_append]; exact chunksOf_flatten hb₁ content)
    (fun ch hch => chunksOf_ne_nil hb₁ content ch hch) hf₁
  have h2 := runLoop_ofInc I hmono hfin content hok hfe (chunksOf b₂ content) [] f₂
    (by rw [List.nil_append]; exact chunksOf_flatten hb₂ content)
    (fun ch hch => chunksOf_ne_nil hb₂ content ch hch) hf₂
  rw [h1, h2]
  simp [hnil]

/-- Witness for the amended C6: the error-free input `"11"` parsed with
chunk sizes 1 and 2 gives the same events and outcome. -/
theorem C6_chunk_size_irrelevant_witness :
    (runLoop (ofInc toyRec) 4 ([], false) (chunksOf 1 [49, 49])
      = runLoop (ofInc toyRec) 3 ([], false) (chunksOf 2 [49, 49]))
    ∧ runLoop (ofInc toyRec) 4 ([], false) (chunksOf 1 [49, 49])
      = some (toyRec.finEvents [49, 49],
          if toyRec.finStatus [49, 49] = Status.insufficientData then Outcome.incomplete
          else Outcome.done) :=
  C6_chunk_size_irrelevant toyRec rfl
    (fun s t => by
      simp only [toyRec, List.filter_append, List.map_append]
      exact List.prefix_append _ _)
    (fun s => List.prefix_refl _)
    [49, 49] 1 2 4 3 (by decide) (by decide)
    (fun p hp => by
      have hnx : (120 : Nat) ∉ p := fun hm => by
        have := hp.subset hm
        simp at this
      simp [toyRec, hnx])
    (by decide) (by decide) (by decide)

/-- Claim C7: on every path out of a parsing session - full
consumption, a raised error, or abandonment after any number `k` of
yielded events - the recognizer resource is released exactly once and
the handle is never accessed after the release: every handle-operation
trace contains exactly one release, and it is the last operation. -/
theorem C7_release_once_and_last {σ : Type} (R : Recognizer σ)
    (fuel : Nat) (s : σ) (chunks : List (List Nat)) (items : List Item) (out : Outcome)
    (h : runItems R fuel s chunks = some (items, out)) (k : Nat) :
    ((abandonTraceOps k items).count HOp.free = 1
      ∧ (abandonTraceOps k items).getLast? = some HOp.free)
    ∧ ((fullTraceOps items).count HOp.free = 1
      ∧ (fullTraceOps items).getLast? = some HOp.free) := by
  have hnf : HOp.free ∉ opsOf items := runItems_no_free R fuel s chunks items out h
  have hnf2 : HOp.free ∉ opsOf (takeThroughYields k items) := by
    intro hmem
    obtain ⟨a, ha, hfa⟩ := List.mem_filterMap.mp hmem
    exact hnf (List.mem_filterMap.mpr ⟨a, mem_takeThroughYields k items ha, hfa⟩)
  exact ⟨⟨trace_count_free hnf2, List.getLast?_concat _⟩,
    ⟨trace_count_free hnf, List.getLast?_concat _⟩⟩

/-- Witness for C7: a run that yields one event and completes; both the
abandon-after-one-event trace and the full trace release exactly once,
as the final operation. -/
theorem C7_release_once_and_last_witness :
    ((abandonTraceOps 1 [Item.op (HOp.parseCall [110]), Item.yield ("null", JValue.null),
        Item.op HOp.completeCall]).count HOp.free = 1
      ∧ (abandonTraceOps 1 [Item.op (HOp.parseCall [110]), Item.yield ("null", JValue.null),
          Item.op HOp.completeCall]).getLast? = some HOp.free)
    ∧ ((fullTraceOps [Item.op (HOp.parseCall [110]), Item.yield ("null", JValue.null),
        Item.op HOp.completeCall]).count HOp.free = 1
      ∧ (fullTraceOps [Item.op (HOp.parseCall [110]), Item.yield ("null", JValue.null),
          Item.op HOp.completeCall]).getLast? = some HOp.free) :=
  C7_release_once_and_last (scripted "e") 3 [(Status.ok, [("null", JValue.null)])]
    [[110]]
    [Item.op (HOp.parseCall [110]), Item.yield ("null", JValue.null),
      Item.op HOp.completeCall]
    Outcome.done (by decide) 1

/-- Claim C10: `basic_parse` is deterministic - for a fixed recognizer
configuration and a source delivering the same bytes in the same
read-sized pieces, any two terminating runs yield identical event
sequences and the same outcome. -/
theorem C10_deterministic {σ : Type} (R : Recognizer σ) (s : σ)
    (chunks : List (List Nat)) (f₁ f₂ : Nat) (r₁ r₂ : List Event × Outcome)
    (h₁ : runLoop R f₁ s chunks = some r₁) (h₂ : runLoop R f₂ s chunks = some r₂) :
    r₁ = r₂ := by
  rcases Nat.le_total f₁ f₂ with hle | hle
  · have hmon := runLoop_mono R f₁ f₂ s chunks r₁ hle h₁
    rw [hmon] at h₂
    exact Option.some.inj h₂
  · have hmon := runLoop_mono R f₂ f₁ s chunks r₂ hle h₂
    rw [hmon] at h₁
    exact (Option.some.inj h₁).symm

/-- Witness for C10: two runs of the same scripted session agree. -/
theorem C10_deterministic_witness :
    (([("null", JValue.null)], Outcome.done) : List Event × Outcome)
      = ([("null", JValue.null)], Outcome.done) :=
  C10_deterministic (scripted "e") [(Status.ok, [("null", JValue.null)])] [[110]] 3 5
    ([("null", JValue.null)], Outcome.done) ([("null", JValue.null)], Outcome.done)
    (by decide) (by decide)

end Yajl
